import Mathlib

/-!
Verification of the tabular-log parser `read_and_parse_dat` in `read.py`.

The Python function scans the lines of a file once, keeping a line counter,
an optional column schema and an "in data section" flag.  A line whose
stripped form contains the substring `Inner_Iter`, seen while not yet in the
data section, becomes the header: it is split on the pipe character, the
pieces are stripped and the empty ones dropped, the result is recorded as
the schema, and the following line is consumed unconditionally by
`next(f, None)` without touching the line counter.  In the data section,
blank lines and lines starting with a plus sign are skipped; any other line
is split the same way, its field count is compared with the schema, the
first field is converted with `int` and the rest with `float`; a failed
check or conversion skips the line with a diagnostic.  After the loop the
function raises if the header was never found, then if no row was
converted, and otherwise returns the rows under the schema.

In the source, `in_data_section` is `True` exactly when `columns` is not
`None`; the embedding merges the two into a single `Option` holding the
schema.  Python `float` values are modelled exactly: finite results as
rational numbers, plus infinities and nan; only success or failure of the
conversion and the shape of the result matter to the parser.  Conversions
are modelled for ASCII text (sign, digit runs with single underscores
between digits, decimal point, exponent, case-insensitive inf/infinity/nan),
which is the alphabet of these log files.
-/

namespace CFDRead

/-- ASCII whitespace stripped by Python `str.strip()`. -/
def pySpace (c : Char) : Bool :=
  c = ' ' || c = '\t' || c = '\n' || c = '\r' || c = '\x0b' || c = '\x0c'

/-- Strip `pySpace` characters from both ends of a character list. -/
def stripL (cs : List Char) : List Char :=
  ((cs.dropWhile pySpace).reverse.dropWhile pySpace).reverse

/-- Python `str.strip()` on a string. -/
def pyStrip (s : String) : String :=
  String.mk (stripL s.data)

/-- Python `str.split(sep)` for a one-character separator: every occurrence
splits, empty pieces are kept, the empty input gives one empty piece. -/
def splitChar (sep : Char) : List Char → List (List Char)
  | [] => [[]]
  | c :: rest =>
    match splitChar sep rest with
    | [] => [[]]
    | g :: gs => if c = sep then [] :: g :: gs else (c :: g) :: gs

/-- `[p.strip() for p in s.split('|') if p.strip()]` from the source:
split on the pipe, strip each piece, drop the empty ones. -/
def pySplitTrim (s : String) : List String :=
  (((splitChar '|' s.data).map stripL).filter (fun p => !p.isEmpty)).map String.mk

/-- Whether `p` is a prefix of the second list (character equality). -/
def isPrefixL : List Char → List Char → Bool
  | [], _ => true
  | _ :: _, [] => false
  | p :: ps, c :: cs => p == c && isPrefixL ps cs

/-- Python substring test `pat in s` on character lists. -/
def containsSeq (pat : List Char) : List Char → Bool
  | [] => pat.isEmpty
  | c :: rest => isPrefixL pat (c :: rest) || containsSeq pat rest

/-- The header marker `Inner_Iter` of `read.py`. -/
def markerChars : List Char :=
  ['I', 'n', 'n', 'e', 'r', '_', 'I', 't', 'e', 'r']

/-- `'Inner_Iter' in s` from the source. -/
def hasMarker (s : String) : Bool :=
  containsSeq markerChars s.data

/-- A run of decimal digits in which single underscores may stand between
two digits, as Python numeric literals and `int`/`float` accept. -/
def digitRun : List Char → Bool
  | [] => false
  | [c] => c.isDigit
  | c :: d :: rest => c.isDigit && (if d = '_' then digitRun rest else digitRun (d :: rest))

/-- Value of a digit run, ignoring underscores. -/
def digitsVal (cs : List Char) : Nat :=
  cs.foldl (fun acc c => if c = '_' then acc else acc * 10 + (c.toNat - 48)) 0

/-- Number of digits in a run (underscores do not count). -/
def digitCountL (cs : List Char) : Nat :=
  (cs.filter (fun c => c.isDigit)).length

/-- Python `int(s)` on already-stripped text: optional sign then a digit
run; anything else raises `ValueError`, modelled as `none`. -/
def pyIntCore : List Char → Option Int
  | [] => none
  | c :: rest =>
    if c = '+' then (if digitRun rest then some ((digitsVal rest : Int)) else none)
    else if c = '-' then (if digitRun rest then some (-(digitsVal rest : Int)) else none)
    else if digitRun (c :: rest) then some ((digitsVal (c :: rest) : Int)) else none

/-- Python `int(s)`: strip whitespace, then parse. -/
def pyInt? (s : String) : Option Int :=
  pyIntCore (stripL s.data)

/-- Result of a successful Python `float` conversion.  A finite value is
kept exactly, as the unreduced fraction the literal denotes (signed
numerator over a power of ten); the parser performs no arithmetic on the
values, so only the conversion verdict and the exact literal content
matter.  Infinities and nan are tagged. -/
inductive PyFloat
  | finite (num : Int) (den : Nat)
  | inf (neg : Bool)
  | nan
deriving DecidableEq

/-- Digit or underscore, the characters a digit run may contain. -/
def digitOrUnd (c : Char) : Bool :=
  c.isDigit || c = '_'

/-- The signed digits after the `e` of an exponent. -/
def expDigits : List Char → Option Int
  | [] => none
  | d :: rest =>
    if d = '+' then (if digitRun rest then some ((digitsVal rest : Int)) else none)
    else if d = '-' then (if digitRun rest then some (-(digitsVal rest : Int)) else none)
    else if digitRun (d :: rest) then some ((digitsVal (d :: rest) : Int)) else none

/-- Parse the exponent suffix of a float literal: empty gives exponent 0,
otherwise `e`/`E`, an optional sign and a digit run ending the input. -/
def expVal : List Char → Option Int
  | [] => some 0
  | c :: rest => if c = 'e' || c = 'E' then expDigits rest else none

/-- Assemble the finite value of a decimal literal from its sign, integer
part, fraction part and exponent: the digits give the numerator, the
fraction length and a negative exponent give the power-of-ten denominator,
a positive exponent scales the numerator. -/
def mantissaVal (neg : Bool) (ip fp : List Char) (e : Int) : PyFloat :=
  let m : Nat := digitsVal ip * 10 ^ digitCountL fp + digitsVal fp
  let sm : Int := if neg then -(m : Int) else (m : Int)
  if 0 ≤ e then PyFloat.finite (sm * (10 : Int) ^ e.toNat) (10 ^ digitCountL fp)
  else PyFloat.finite sm (10 ^ digitCountL fp * 10 ^ (-e).toNat)

/-- Parse an unsigned decimal literal `digits [. digits] [exp]` or
`. digits [exp]`; each digit run must be well formed and at least one of
the integer and fraction parts must be present. -/
def decimalVal (neg : Bool) (cs : List Char) : Option PyFloat :=
  let ip := cs.takeWhile digitOrUnd
  let rest1 := cs.dropWhile digitOrUnd
  match rest1 with
  | [] => if digitRun ip then some (mantissaVal neg ip [] 0) else none
  | c :: rest2 =>
    if c = '.' then
      let fp := rest2.takeWhile digitOrUnd
      let rest3 := rest2.dropWhile digitOrUnd
      if (ip.isEmpty || digitRun ip) && (fp.isEmpty || digitRun fp)
          && !(ip.isEmpty && fp.isEmpty) then
        match expVal rest3 with
        | some e => some (mantissaVal neg ip fp e)
        | none => none
      else none
    else
      if digitRun ip then
        match expVal rest1 with
        | some e => some (mantissaVal neg ip [] e)
        | none => none
      else none

/-- Lower-case a character list, for the case-insensitive special floats. -/
def lowChars (cs : List Char) : List Char :=
  cs.map Char.toLower

/-- Python `float(s)` on stripped text: optional sign, then `inf`,
`infinity`, `nan` (case-insensitive) or a decimal literal. -/
def pyFloatCore (cs : List Char) : Option PyFloat :=
  match cs with
  | [] => none
  | c :: rest =>
    let p : Bool × List Char :=
      if c = '+' then (false, rest)
      else if c = '-' then (true, rest)
      else (false, c :: rest)
    let low := lowChars p.2
    if low = ['i', 'n', 'f'] ∨ low = ['i', 'n', 'f', 'i', 'n', 'i', 't', 'y'] then
      some (PyFloat.inf p.1)
    else if low = ['n', 'a', 'n'] then some PyFloat.nan
    else decimalVal p.1 p.2

/-- Python `float(s)`: strip whitespace, then parse. -/
def pyFloat? (s : String) : Option PyFloat :=
  pyFloatCore (stripL s.data)

/-- A parsed data row: the integer first field and the float values of the
remaining fields, in order. -/
abbrev Row := Int × List PyFloat

/-- `[float(val) for val in vs]`: all conversions must succeed. -/
def floatList : List String → Option (List PyFloat)
  | [] => some []
  | v :: vs =>
    match pyFloat? v, floatList vs with
    | some x, some xs => some (x :: xs)
    | _, _ => none

/-- `[int(values[0])] + [float(val) for val in values[1:]]` under the
`except ValueError` of the source: `none` when any conversion fails.  The
empty field list cannot reach this point in the parser, because the schema
is never empty while an empty candidate row has length zero. -/
def convertRow : List String → Option Row
  | [] => none
  | v :: vs =>
    match pyInt? v, floatList vs with
    | some i, some xs => some (i, xs)
    | _, _ => none

/-- One diagnostic line printed by the parser, with the line number it
reports: header discovery, a field-count skip, or a conversion skip. -/
inductive Diag
  | header (ln : Nat) (cols : List String)
  | skipCount (ln : Nat) (expected got : Nat)
  | skipValue (ln : Nat)
deriving DecidableEq

/-- How the data-section branch of the loop treats one line. -/
inductive RowStep
  | skip
  | badCount (expected got : Nat)
  | badValue
  | row (r : Row)
deriving DecidableEq

/-- `stripped_line.startswith('+')`. -/
def startsPlus : List Char → Bool
  | c :: _ => c = '+'
  | [] => false

/-- Lines 30-43 of `read.py` for one line in the data section: skip blank
and rule lines, split and trim, compare the field count with the schema,
then convert; a conversion failure is the caught `ValueError`. -/
def rowStep (cs : List String) (line : String) : RowStep :=
  let s := pyStrip line
  if s.data.isEmpty || startsPlus s.data then RowStep.skip
  else
    let values := pySplitTrim s
    if values.length ≠ cs.length then RowStep.badCount cs.length values.length
    else
      match convertRow values with
      | some r => RowStep.row r
      | none => RowStep.badValue

/-- The row a data-section line contributes, if any. -/
def rowResult (cs : List String) (line : String) : Option Row :=
  match rowStep cs line with
  | RowStep.row r => some r
  | _ => none

/-- The loop of `read_and_parse_dat`: lines still to read, the line
counter, the schema (`none` while seeking the header, which is exactly
`in_data_section == False` in the source), accumulated rows and
diagnostics.  The header branch consumes the following line without
incrementing the counter, the `next(f, None)` of line 26. -/
def scan : List String → Nat → Option (List String) → List Row → List Diag →
    Option (List String) × List Row × List Diag
  | [], _, cols, data, diags => (cols, data, diags)
  | line :: rest, ln, none, data, diags =>
    let s := pyStrip line
    if hasMarker s then
      let cs := pySplitTrim s
      match rest with
      | [] => (some cs, data, diags ++ [Diag.header (ln + 1) cs])
      | _ :: rest2 => scan rest2 (ln + 1) (some cs) data (diags ++ [Diag.header (ln + 1) cs])
    else scan rest (ln + 1) none data diags
  | line :: rest, ln, some cs, data, diags =>
    match rowStep cs line with
    | RowStep.skip => scan rest (ln + 1) (some cs) data diags
    | RowStep.badCount e g =>
        scan rest (ln + 1) (some cs) data (diags ++ [Diag.skipCount (ln + 1) e g])
    | RowStep.badValue =>
        scan rest (ln + 1) (some cs) data (diags ++ [Diag.skipValue (ln + 1)])
    | RowStep.row r => scan rest (ln + 1) (some cs) (data ++ [r]) diags

/-- The structural failures of the parser. -/
inductive ParseError
  | missingHeader
  | noData
deriving DecidableEq

/-- The returned table: the header schema and the accepted rows. -/
structure LogTable where
  columns : List String
  rows : List Row
deriving DecidableEq

/-- `read_and_parse_dat` on the lines of the file: run the scan, raise
`missing header` when no header was found, then `no data` when no row was
converted, otherwise return the table. -/
def read_and_parse_dat (lines : List String) : Except ParseError LogTable :=
  match scan lines 0 none [] [] with
  | (none, _, _) => Except.error ParseError.missingHeader
  | (some cs, data, _) =>
    if data = [] then Except.error ParseError.noData else Except.ok ⟨cs, data⟩

/-- The schema the scan of a whole input ends with. -/
def scanCols (lines : List String) : Option (List String) :=
  (scan lines 0 none [] []).1

/-- The rows the scan of a whole input accumulates. -/
def scanData (lines : List String) : List Row :=
  (scan lines 0 none [] []).2.1

/-- The diagnostics the parser prints on a whole input, in order. -/
def parseDiags (lines : List String) : List Diag :=
  (scan lines 0 none [] []).2.2

/-- The same loop with explicit fuel, one unit per iteration; `none` means
the fuel ran out before the input was consumed. -/
def scanFuel : Nat → List String → Nat → Option (List String) → List Row → List Diag →
    Option (Option (List String) × List Row × List Diag)
  | _, [], _, cols, data, diags => some (cols, data, diags)
  | 0, _ :: _, _, _, _, _ => none
  | fuel + 1, line :: rest, ln, none, data, diags =>
    let s := pyStrip line
    if hasMarker s then
      let cs := pySplitTrim s
      match rest with
      | [] => some (some cs, data, diags ++ [Diag.header (ln + 1) cs])
      | _ :: rest2 =>
        scanFuel fuel rest2 (ln + 1) (some cs) data (diags ++ [Diag.header (ln + 1) cs])
    else scanFuel fuel rest (ln + 1) none data diags
  | fuel + 1, line :: rest, ln, some cs, data, diags =>
    match rowStep cs line with
    | RowStep.skip => scanFuel fuel rest (ln + 1) (some cs) data diags
    | RowStep.badCount e g =>
        scanFuel fuel rest (ln + 1) (some cs) data (diags ++ [Diag.skipCount (ln + 1) e g])
    | RowStep.badValue =>
        scanFuel fuel rest (ln + 1) (some cs) data (diags ++ [Diag.skipValue (ln + 1)])
    | RowStep.row r => scanFuel fuel rest (ln + 1) (some cs) (data ++ [r]) diags

/-- A diagnostic together with the 1-based position, in the original
input, of the line that produced it. -/
structure TrDiag where
  diag : Diag
  actual : Nat
deriving DecidableEq

/-- The same loop, also carrying the 1-based position of the next line to
be read; the header branch advances the position by two (header line plus
the separator consumed by `next`) while the line counter grows by one. -/
def scanTr : List String → Nat → Nat → Option (List String) → List Row → List TrDiag →
    Option (List String) × List Row × List TrDiag
  | [], _, _, cols, data, diags => (cols, data, diags)
  | line :: rest, pos, ln, none, data, diags =>
    let s := pyStrip line
    if hasMarker s then
      let cs := pySplitTrim s
      match rest with
      | [] => (some cs, data, diags ++ [⟨Diag.header (ln + 1) cs, pos⟩])
      | _ :: rest2 =>
        scanTr rest2 (pos + 2) (ln + 1) (some cs) data
          (diags ++ [⟨Diag.header (ln + 1) cs, pos⟩])
    else scanTr rest (pos + 1) (ln + 1) none data diags
  | line :: rest, pos, ln, some cs, data, diags =>
    match rowStep cs line with
    | RowStep.skip => scanTr rest (pos + 1) (ln + 1) (some cs) data diags
    | RowStep.badCount e g =>
        scanTr rest (pos + 1) (ln + 1) (some cs) data
          (diags ++ [⟨Diag.skipCount (ln + 1) e g, pos⟩])
    | RowStep.badValue =>
        scanTr rest (pos + 1) (ln + 1) (some cs) data
          (diags ++ [⟨Diag.skipValue (ln + 1), pos⟩])
    | RowStep.row r => scanTr rest (pos + 1) (ln + 1) (some cs) (data ++ [r]) diags

/-- The diagnostics of a whole input with their actual positions. -/
def traceDiags (lines : List String) : List TrDiag :=
  (scanTr lines 1 0 none [] []).2.2

/-- Whether a diagnostic reports a skipped row (rather than the header). -/
def skipDiag : Diag → Bool
  | Diag.header _ _ => false
  | Diag.skipCount _ _ _ => true
  | Diag.skipValue _ => true

/-- The line number a diagnostic reports. -/
def diagLn : Diag → Nat
  | Diag.header ln _ => ln
  | Diag.skipCount ln _ _ => ln
  | Diag.skipValue ln => ln

instance : DecidableEq (Except ParseError LogTable)
  | Except.ok a, Except.ok b => decidable_of_iff (a = b) (by simp)
  | Except.ok a, Except.error e => isFalse (by intro h; cases h)
  | Except.error e, Except.ok b => isFalse (by intro h; cases h)
  | Except.error e, Except.error f => decidable_of_iff (e = f) (by simp)

/-! ### Concrete inputs used to instantiate the theorems -/

/-- A typical residual-log header line. -/
def wHeader : String := "Inner_Iter | Residual"

/-- A decorative rule line. -/
def wSep : String := "+-----------+"

/-- A valid data row. -/
def wRow0 : String := "0 | 1.5"

/-- Another valid data row. -/
def wRow1 : String := "1 | 0.002"

/-- A malformed data row: the first field is not an integer. -/
def wBad : String := "x | bad"

/-- A blank line. -/
def wBlank : String := "   "

/-- Free-form preamble text without the marker. -/
def wPreLine : String := "Some solver banner"

/-- A header whose first column is not the iteration counter. -/
def wHeaderSwap : String := "Residual | Inner_Iter"

/-- A header carrying the marker inside a longer name. -/
def wHeaderLong : String := "xxInner_Iterzz | A"

/-- A valid row for the two-column examples. -/
def wRow3 : String := "3 | 1.5"

/-- A minimal complete input. -/
def wLines1 : List String := [wHeader, wSep, wRow0]

/-- The name `Residual`. -/
def strResidual : String := "Residual"

/-- The marker name `Inner_Iter`. -/
def strInnerIter : String := "Inner_Iter"

/-- A name containing the marker strictly inside. -/
def strLongName : String := "xxInner_Iterzz"

/-- The name `A`. -/
def strA : String := "A"

/-- A valid row for the long-name example. -/
def wRowB : String := "1 | 2.0"

/-- Input for the C9 witness: banner, header, separator, one valid row,
one bad row at actual position five. -/
def wLines9 : List String := [wPreLine, wHeader, wSep, wRow0, wBad]

/-! ### Behaviour of the scan in the data section -/

/-- In the data section the schema never changes and each line contributes
exactly its `rowResult`, in order. -/
theorem scan_some_spec (body : List String) :
    ∀ (ln : Nat) (cs : List String) (data : List Row) (diags : List Diag),
    ∃ ds, scan body ln (some cs) data diags =
      (some cs, data ++ body.filterMap (rowResult cs), ds) := by
  induction body with
  | nil => intro ln cs data diags; exact ⟨diags, by simp [scan]⟩
  | cons l rest ih =>
    intro ln cs data diags
    cases hr : rowStep cs l with
    | skip =>
      obtain ⟨ds, hds⟩ := ih (ln + 1) cs data diags
      exact ⟨ds, by simp [scan, hr, hds, rowResult, List.filterMap_cons]⟩
    | badCount e g =>
      obtain ⟨ds, hds⟩ := ih (ln + 1) cs data (diags ++ [Diag.skipCount (ln + 1) e g])
      exact ⟨ds, by simp [scan, hr, hds, rowResult, List.filterMap_cons]⟩
    | badValue =>
      obtain ⟨ds, hds⟩ := ih (ln + 1) cs data (diags ++ [Diag.skipValue (ln + 1)])
      exact ⟨ds, by simp [scan, hr, hds, rowResult, List.filterMap_cons]⟩
    | row r =>
      obtain ⟨ds, hds⟩ := ih (ln + 1) cs (data ++ [r]) diags
      exact ⟨ds, by simp [scan, hr, hds, rowResult, List.filterMap_cons]⟩

/-- Lines without the marker are ignored while seeking the header. -/
theorem scan_seek_append (pre : List String) :
    ∀ (rest : List String) (ln : Nat) (data : List Row) (diags : List Diag),
    (∀ l ∈ pre, hasMarker (pyStrip l) = false) →
    scan (pre ++ rest) ln none data diags = scan rest (ln + pre.length) none data diags := by
  induction pre with
  | nil => intro rest ln data diags _; simp
  | cons p ps ih =>
    intro rest ln data diags hpre
    have hp : hasMarker (pyStrip p) = false := hpre p (by simp)
    have hps : ∀ l ∈ ps, hasMarker (pyStrip l) = false := fun l hl => hpre l (by simp [hl])
    have : ln + 1 + ps.length = ln + (ps.length + 1) := by omega
    simp [scan, hp, ih rest (ln + 1) data diags hps, this]

/-- The scan ends without a schema exactly when no line has the marker. -/
theorem scan_seek_none_iff (lines : List String) :
    ∀ (ln : Nat) (data : List Row) (diags : List Diag),
    (scan lines ln none data diags).1 = none ↔
      ∀ l ∈ lines, hasMarker (pyStrip l) = false := by
  induction lines with
  | nil => intro ln data diags; simp [scan]
  | cons l rest ih =>
    intro ln data diags
    by_cases hl : hasMarker (pyStrip l)
    · have hsome : ∃ cs, (scan (l :: rest) ln none data diags).1 = some cs := by
        cases rest with
        | nil => exact ⟨pySplitTrim (pyStrip l), by simp [scan, hl]⟩
        | cons x rest2 =>
          obtain ⟨ds, hds⟩ := scan_some_spec rest2 (ln + 1) (pySplitTrim (pyStrip l)) data
            (diags ++ [Diag.header (ln + 1) (pySplitTrim (pyStrip l))])
          exact ⟨pySplitTrim (pyStrip l), by simp [scan, hl, hds]⟩
      obtain ⟨cs, hcs⟩ := hsome
      rw [hcs]
      constructor
      · intro hfalse; simp at hfalse
      · intro hall; exact absurd (hall l (by simp)) (by simp [hl])
    · simp only [List.forall_mem_cons]
      rw [show scan (l :: rest) ln none data diags = scan rest (ln + 1) none data diags from by
        simp [scan, hl]]
      rw [ih (ln + 1) data diags]
      simp [hl]

/-- Any input with a header decomposes as preamble, header line, consumed
separator and data block; the parse result only depends on the schema and
the data block. -/
theorem read_decomp (pre : List String) (h sep : String) (body : List String)
    (hpre : ∀ l ∈ pre, hasMarker (pyStrip l) = false)
    (hh : hasMarker (pyStrip h) = true) :
    read_and_parse_dat (pre ++ h :: sep :: body) =
      (if body.filterMap (rowResult (pySplitTrim (pyStrip h))) = []
       then Except.error ParseError.noData
       else Except.ok ⟨pySplitTrim (pyStrip h),
                       body.filterMap (rowResult (pySplitTrim (pyStrip h)))⟩) := by
  obtain ⟨ds, hds⟩ := scan_some_spec body (pre.length + 1) (pySplitTrim (pyStrip h)) []
    ([] ++ [Diag.header (pre.length + 1) (pySplitTrim (pyStrip h))])
  unfold read_and_parse_dat
  rw [scan_seek_append pre (h :: sep :: body) 0 [] [] hpre]
  simp only [Nat.zero_add]
  rw [show scan (h :: sep :: body) pre.length none [] [] =
      scan body (pre.length + 1) (some (pySplitTrim (pyStrip h))) []
        ([] ++ [Diag.header (pre.length + 1) (pySplitTrim (pyStrip h))]) from by
    simp [scan, hh]]
  rw [hds]
  simp

/-- The scan rows of a decomposed input, in closed form. -/
theorem scanData_decomp (pre : List String) (h sep : String) (body : List String)
    (hpre : ∀ l ∈ pre, hasMarker (pyStrip l) = false)
    (hh : hasMarker (pyStrip h) = true) :
    scanData (pre ++ h :: sep :: body) =
      body.filterMap (rowResult (pySplitTrim (pyStrip h))) := by
  obtain ⟨ds, hds⟩ := scan_some_spec body (pre.length + 1) (pySplitTrim (pyStrip h)) []
    ([] ++ [Diag.header (pre.length + 1) (pySplitTrim (pyStrip h))])
  unfold scanData
  rw [scan_seek_append pre (h :: sep :: body) 0 [] [] hpre]
  simp only [Nat.zero_add]
  rw [show scan (h :: sep :: body) pre.length none [] [] =
      scan body (pre.length + 1) (some (pySplitTrim (pyStrip h))) []
        ([] ++ [Diag.header (pre.length + 1) (pySplitTrim (pyStrip h))]) from by
    simp [scan, hh]]
  rw [hds]
  simp

/-- The final schema of a decomposed input is the header schema. -/
theorem scanCols_decomp (pre : List String) (h sep : String) (body : List String)
    (hpre : ∀ l ∈ pre, hasMarker (pyStrip l) = false)
    (hh : hasMarker (pyStrip h) = true) :
    scanCols (pre ++ h :: sep :: body) = some (pySplitTrim (pyStrip h)) := by
  obtain ⟨ds, hds⟩ := scan_some_spec body (pre.length + 1) (pySplitTrim (pyStrip h)) []
    ([] ++ [Diag.header (pre.length + 1) (pySplitTrim (pyStrip h))])
  unfold scanCols
  rw [scan_seek_append pre (h :: sep :: body) 0 [] [] hpre]
  simp only [Nat.zero_add]
  rw [show scan (h :: sep :: body) pre.length none [] [] =
      scan body (pre.length + 1) (some (pySplitTrim (pyStrip h))) []
        ([] ++ [Diag.header (pre.length + 1) (pySplitTrim (pyStrip h))]) from by
    simp [scan, hh]]
  rw [hds]

/-- A header as the very last line: the unconditional skip finds no line,
the loop ends, and the parse fails with the no-data error. -/
theorem read_header_last (pre : List String) (h : String)
    (hpre : ∀ l ∈ pre, hasMarker (pyStrip l) = false)
    (hh : hasMarker (pyStrip h) = true) :
    read_and_parse_dat (pre ++ [h]) = Except.error ParseError.noData := by
  unfold read_and_parse_dat
  rw [scan_seek_append pre [h] 0 [] [] hpre]
  simp [scan, hh]

/-! ### Shape of accepted rows -/

/-- A successful float comprehension converts every element. -/
theorem floatList_length (vs : List String) :
    ∀ xs, floatList vs = some xs → xs.length = vs.length := by
  induction vs with
  | nil => intro xs hxs; simp [floatList] at hxs; simp [hxs.symm]
  | cons v vs ih =>
    intro xs hxs
    simp only [floatList] at hxs
    cases hv : pyFloat? v with
    | none => rw [hv] at hxs; cases hxs
    | some x =>
      rw [hv] at hxs
      cases hvs : floatList vs with
      | none => rw [hvs] at hxs; cases hxs
      | some ys =>
        rw [hvs] at hxs
        cases hxs
        simp [ih ys hvs]

/-- A converted row has exactly one value per input field. -/
theorem convertRow_length (vs : List String) (i : Int) (xs : List PyFloat)
    (hc : convertRow vs = some (i, xs)) : 1 + xs.length = vs.length := by
  cases vs with
  | nil => cases hc
  | cons v vs =>
    simp only [convertRow] at hc
    cases hi : pyInt? v with
    | none => rw [hi] at hc; cases hc
    | some j =>
      rw [hi] at hc
      cases hvs : floatList vs with
      | none => rw [hvs] at hc; cases hc
      | some ys =>
        rw [hvs] at hc
        have hlen := floatList_length vs ys hvs
        cases hc
        simp only [List.length_cons]
        omega

/-- A line contributes a row exactly when it is not blank, does not start
with a plus, has the schema's field count, and all fields convert. -/
theorem rowResult_eq_some_iff (cs : List String) (l : String) (r : Row) :
    rowResult cs l = some r ↔
      ((pyStrip l).data.isEmpty || startsPlus (pyStrip l).data) = false ∧
      (pySplitTrim (pyStrip l)).length = cs.length ∧
      convertRow (pySplitTrim (pyStrip l)) = some r := by
  simp only [rowResult, rowStep]
  cases h1 : ((pyStrip l).data.isEmpty || startsPlus (pyStrip l).data) with
  | true => simp
  | false =>
    by_cases h2 : (pySplitTrim (pyStrip l)).length ≠ cs.length
    · simp [h2]
    · push_neg at h2
      cases hc : convertRow (pySplitTrim (pyStrip l)) with
      | none => simp [h2, hc]
      | some r2 => simp [h2, hc]

/-- Every row the scan returns was converted from a field list of the
schema's length. -/
theorem scanData_shape (lines : List String) :
    ∀ (ln : Nat) (diags : List Diag) (cs : List String) (r : Row),
    (scan lines ln none [] diags).1 = some cs →
    r ∈ (scan lines ln none [] diags).2.1 →
    ∃ vs, vs.length = cs.length ∧ convertRow vs = some r := by
  induction lines with
  | nil => intro ln diags cs r hcs hr; simp [scan] at hr
  | cons l rest ih =>
    intro ln diags cs r hcs hr
    by_cases hl : hasMarker (pyStrip l)
    · cases rest with
      | nil =>
        simp [scan, hl] at hr
      | cons x rest2 =>
        obtain ⟨ds, hds⟩ := scan_some_spec rest2 (ln + 1) (pySplitTrim (pyStrip l)) []
          (diags ++ [Diag.header (ln + 1) (pySplitTrim (pyStrip l))])
        rw [show scan (l :: x :: rest2) ln none [] diags =
            scan rest2 (ln + 1) (some (pySplitTrim (pyStrip l))) []
              (diags ++ [Diag.header (ln + 1) (pySplitTrim (pyStrip l))]) from by
          simp [scan, hl]] at hcs hr
        rw [hds] at hcs hr
        simp at hcs hr
        obtain ⟨line, _, hline⟩ := hr
        obtain ⟨_, hlen, hconv⟩ := (rowResult_eq_some_iff _ line r).mp hline
        exact ⟨pySplitTrim (pyStrip line), by rw [hlen, hcs], by exact hconv⟩
    · rw [show scan (l :: rest) ln none [] diags = scan rest (ln + 1) none [] diags from by
        simp [scan, hl]] at hcs hr
      exact ih (ln + 1) diags cs r hcs hr

/-! ### A fuel-indexed variant: the loop consumes each line at most once -/

/-- As many fuel units as lines always suffice: the single forward pass
ends after consuming all lines. -/
theorem scanFuel_adequate (n : Nat) :
    ∀ (lines : List String), lines.length ≤ n →
    ∀ (ln : Nat) (cols : Option (List String)) (data : List Row) (diags : List Diag),
    scanFuel n lines ln cols data diags = some (scan lines ln cols data diags) := by
  induction n with
  | zero =>
    intro lines hlen ln cols data diags
    have : lines = [] := List.length_eq_zero.mp (Nat.le_zero.mp hlen)
    subst this
    simp [scanFuel, scan]
  | succ n ih =>
    intro lines hlen ln cols data diags
    cases lines with
    | nil => simp [scanFuel, scan]
    | cons l rest =>
      have hrest : rest.length ≤ n := by simp at hlen; omega
      cases cols with
      | none =>
        by_cases hl : hasMarker (pyStrip l)
        · cases rest with
          | nil => simp [scanFuel, scan, hl]
          | cons x rest2 =>
            have hrest2 : rest2.length ≤ n := by simp at hrest; omega
            simp only [scanFuel, scan, hl, if_true]
            exact ih rest2 hrest2 (ln + 1) (some (pySplitTrim (pyStrip l))) data
              (diags ++ [Diag.header (ln + 1) (pySplitTrim (pyStrip l))])
        · simp only [scanFuel, scan, hl, if_false, Bool.false_eq_true]
          exact ih rest hrest (ln + 1) none data diags
      | some cs =>
        cases hr : rowStep cs l with
        | skip =>
          simp only [scanFuel, scan, hr]
          exact ih rest hrest (ln + 1) (some cs) data diags
        | badCount e g =>
          simp only [scanFuel, scan, hr]
          exact ih rest hrest (ln + 1) (some cs) data (diags ++ [Diag.skipCount (ln + 1) e g])
        | badValue =>
          simp only [scanFuel, scan, hr]
          exact ih rest hrest (ln + 1) (some cs) data (diags ++ [Diag.skipValue (ln + 1)])
        | row r =>
          simp only [scanFuel, scan, hr]
          exact ih rest hrest (ln + 1) (some cs) (data ++ [r]) diags

/-! ### The scan with each diagnostic tagged by its actual input position -/

/-- Forgetting the positions recovers the scan exactly. -/
theorem scanTr_agree (n : Nat) :
    ∀ (lines : List String), lines.length ≤ n →
    ∀ (pos ln : Nat) (cols : Option (List String)) (data : List Row) (tdiags : List TrDiag),
    scan lines ln cols data (tdiags.map TrDiag.diag) =
      ((scanTr lines pos ln cols data tdiags).1,
       (scanTr lines pos ln cols data tdiags).2.1,
       ((scanTr lines pos ln cols data tdiags).2.2).map TrDiag.diag) := by
  induction n with
  | zero =>
    intro lines hlen pos ln cols data tdiags
    have : lines = [] := List.length_eq_zero.mp (Nat.le_zero.mp hlen)
    subst this
    simp [scan, scanTr]
  | succ n ih =>
    intro lines hlen pos ln cols data tdiags
    cases lines with
    | nil => simp [scan, scanTr]
    | cons l rest =>
      have hrest : rest.length ≤ n := by simp at hlen; omega
      cases cols with
      | none =>
        by_cases hl : hasMarker (pyStrip l)
        · cases rest with
          | nil => simp [scan, scanTr, hl]
          | cons x rest2 =>
            have hrest2 : rest2.length ≤ n := by simp at hrest; omega
            have := ih rest2 hrest2 (pos + 2) (ln + 1) (some (pySplitTrim (pyStrip l))) data
              (tdiags ++ [⟨Diag.header (ln + 1) (pySplitTrim (pyStrip l)), pos⟩])
            simp only [List.map_append, List.map_cons, List.map_nil] at this
            simp only [scan, scanTr, hl, if_true]
            exact this
        · simp only [scan, scanTr, hl, if_false, Bool.false_eq_true]
          exact ih rest hrest (pos + 1) (ln + 1) none data tdiags
      | some cs =>
        cases hr : rowStep cs l with
        | skip =>
          simp only [scan, scanTr, hr]
          exact ih rest hrest (pos + 1) (ln + 1) (some cs) data tdiags
        | badCount e g =>
          have := ih rest hrest (pos + 1) (ln + 1) (some cs) data
            (tdiags ++ [⟨Diag.skipCount (ln + 1) e g, pos⟩])
          simp only [List.map_append, List.map_cons, List.map_nil] at this
          simp only [scan, scanTr, hr]
          exact this
        | badValue =>
          have := ih rest hrest (pos + 1) (ln + 1) (some cs) data
            (tdiags ++ [⟨Diag.skipValue (ln + 1), pos⟩])
          simp only [List.map_append, List.map_cons, List.map_nil] at this
          simp only [scan, scanTr, hr]
          exact this
        | row r =>
          simp only [scan, scanTr, hr]
          exact ih rest hrest (pos + 1) (ln + 1) (some cs) (data ++ [r]) tdiags

/-- The counter invariant: while seeking, the counter is one behind the
next position; in the data section it is two behind, because the consumed
separator advanced the input without touching the counter.  Hence header
diagnostics report their true position and every skip diagnostic reports
one less than its line's true position. -/
theorem scanTr_invariant (n : Nat) :
    ∀ (lines : List String), lines.length ≤ n →
    ∀ (pos ln : Nat) (cols : Option (List String)) (data : List Row) (tdiags : List TrDiag),
    (cols = none → ln + 1 = pos) →
    (cols ≠ none → ln + 2 = pos) →
    (∀ t ∈ tdiags,
      (skipDiag t.diag = true → diagLn t.diag + 1 = t.actual) ∧
      (skipDiag t.diag = false → diagLn t.diag = t.actual)) →
    ∀ t ∈ (scanTr lines pos ln cols data tdiags).2.2,
      (skipDiag t.diag = true → diagLn t.diag + 1 = t.actual) ∧
      (skipDiag t.diag = false → diagLn t.diag = t.actual) := by
  induction n with
  | zero =>
    intro lines hlen pos ln cols data tdiags _ _ hd
    have : lines = [] := List.length_eq_zero.mp (Nat.le_zero.mp hlen)
    subst this
    simpa [scanTr] using hd
  | succ n ih =>
    intro lines hlen pos ln cols data tdiags hseek hdata hd
    cases lines with
    | nil => simpa [scanTr] using hd
    | cons l rest =>
      have hrest : rest.length ≤ n := by simp at hlen; omega
      cases cols with
      | none =>
        have hpos : ln + 1 = pos := hseek rfl
        by_cases hl : hasMarker (pyStrip l)
        · have hnew : ∀ t ∈ tdiags ++ [⟨Diag.header (ln + 1) (pySplitTrim (pyStrip l)), pos⟩],
              (skipDiag t.diag = true → diagLn t.diag + 1 = t.actual) ∧
              (skipDiag t.diag = false → diagLn t.diag = t.actual) := by
            intro t ht
            rcases List.mem_append.mp ht with h | h
            · exact hd t h
            · simp at h
              subst h
              simp [skipDiag, diagLn, hpos]
          cases rest with
          | nil =>
            intro t ht
            simp only [scanTr, hl, if_true] at ht
            exact hnew t ht
          | cons x rest2 =>
            have hrest2 : rest2.length ≤ n := by simp at hrest; omega
            intro t ht
            simp only [scanTr, hl, if_true] at ht
            exact ih rest2 hrest2 (pos + 2) (ln + 1) (some (pySplitTrim (pyStrip l))) data
              (tdiags ++ [⟨Diag.header (ln + 1) (pySplitTrim (pyStrip l)), pos⟩])
              (by intro hc; cases hc) (by intro _; omega) hnew t ht
        · intro t ht
          simp only [scanTr, hl, if_false, Bool.false_eq_true] at ht
          exact ih rest hrest (pos + 1) (ln + 1) none data tdiags
            (by intro _; omega) (by intro hc; exact absurd rfl hc) hd t ht
      | some cs =>
        have hpos : ln + 2 = pos := hdata (by simp)
        cases hr : rowStep cs l with
        | skip =>
          intro t ht
          simp only [scanTr, hr] at ht
          exact ih rest hrest (pos + 1) (ln + 1) (some cs) data tdiags
            (by intro hc; cases hc) (by intro _; omega) hd t ht
        | badCount e g =>
          intro t ht
          simp only [scanTr, hr] at ht
          refine ih rest hrest (pos + 1) (ln + 1) (some cs) data
            (tdiags ++ [⟨Diag.skipCount (ln + 1) e g, pos⟩])
            (by intro hc; cases hc) (by intro _; omega) ?_ t ht
          intro u hu
          rcases List.mem_append.mp hu with h | h
          · exact hd u h
          · simp at h
            subst h
            simp [skipDiag, diagLn]
            omega
        | badValue =>
          intro t ht
          simp only [scanTr, hr] at ht
          refine ih rest hrest (pos + 1) (ln + 1) (some cs) data
            (tdiags ++ [⟨Diag.skipValue (ln + 1), pos⟩])
            (by intro hc; cases hc) (by intro _; omega) ?_ t ht
          intro u hu
          rcases List.mem_append.mp hu with h | h
          · exact hd u h
          · simp at h
            subst h
            simp [skipDiag, diagLn]
            omega
        | row r =>
          intro t ht
          simp only [scanTr, hr] at ht
          exact ih rest hrest (pos + 1) (ln + 1) (some cs) (data ++ [r]) tdiags
            (by intro hc; cases hc) (by intro _; omega) hd t ht

/-- General count-dependent helper: the rows kept by a filterMap are as
many as the elements it accepts. -/
theorem filterMap_length_eq_count (f : String → Option Row) (l : List String) :
    (l.filterMap f).length = (l.filter (fun x => (f x).isSome)).length := by
  induction l with
  | nil => simp
  | cons a l ih => cases hf : f a <;> simp [List.filterMap_cons, hf, ih]

/-! ### No marker-carrying field ever converts

A line whose stripped form contains `Inner_Iter` keeps the marker inside
one pipe-separated field; that field contains a capital `I` and is at
least ten characters long, so neither `int` nor `float` accepts it, and
the whole row conversion fails. -/

/-- The executable prefix test agrees with `List.IsPrefix`. -/
theorem isPrefixL_iff (p : List Char) : ∀ l, isPrefixL p l = true ↔ p <+: l := by
  induction p with
  | nil => intro l; simp [isPrefixL, List.nil_prefix]
  | cons a p ih =>
    intro l
    cases l with
    | nil => simp [isPrefixL]
    | cons b l2 => simp [isPrefixL, ih, List.cons_prefix_cons]

/-- The executable substring test agrees with `List.IsInfix`. -/
theorem containsSeq_iff (pat : List Char) : ∀ cs, containsSeq pat cs = true ↔ pat <:+: cs := by
  intro cs
  induction cs with
  | nil => simp [containsSeq, List.infix_nil, List.isEmpty_iff]
  | cons c rest ih => simp [containsSeq, isPrefixL_iff, ih, List.infix_cons_iff]

/-- `dropWhile` keeps an infix whose first character fails the predicate. -/
theorem infix_dropWhile (p : Char → Bool) (a : Char) (pat2 : List Char) (l : List Char)
    (ha : p a = false) (h : (a :: pat2) <:+: l) :
    (a :: pat2) <:+: l.dropWhile p := by
  obtain ⟨s, t, rfl⟩ := h
  induction s with
  | nil =>
    simp only [List.nil_append, List.cons_append, List.dropWhile_cons, ha,
      Bool.false_eq_true, if_false]
    exact ⟨[], t, by simp⟩
  | cons x s ih =>
    by_cases hx : p x
    · simpa only [List.cons_append, List.dropWhile_cons, hx, if_true] using ih
    · simp only [List.cons_append, List.dropWhile_cons, hx, Bool.false_eq_true, if_false]
      exact List.infix_cons ⟨s, t, rfl⟩

/-- Stripping preserves an infix of non-space characters. -/
theorem infix_stripL (pat cs : List Char) (hne : pat ≠ [])
    (hns : ∀ c ∈ pat, pySpace c = false) (h : pat <:+: cs) :
    pat <:+: stripL cs := by
  obtain ⟨a, pat2, rfl⟩ := List.exists_cons_of_ne_nil hne
  have h1 : (a :: pat2) <:+: cs.dropWhile pySpace :=
    infix_dropWhile pySpace a pat2 cs (hns a (by simp)) h
  have h2 : (a :: pat2).reverse <:+: (cs.dropWhile pySpace).reverse :=
    List.reverse_infix.mpr h1
  obtain ⟨b, rpat, hbr⟩ := List.exists_cons_of_ne_nil
    (l := (a :: pat2).reverse) (by simp)
  have hbmem : b ∈ (a :: pat2) := by
    have hx : b ∈ (a :: pat2).reverse := by rw [hbr]; simp
    exact List.mem_reverse.mp hx
  rw [hbr] at h2
  have h3 : (b :: rpat) <:+: ((cs.dropWhile pySpace).reverse).dropWhile pySpace :=
    infix_dropWhile pySpace b rpat _ (hns b hbmem) h2
  have h4 := List.reverse_infix.mpr h3
  rw [← hbr] at h4
  simpa [stripL] using h4

/-- The first bucket of a character split is the separator-free prefix. -/
theorem splitChar_first (sep : Char) :
    ∀ cs, ∃ gs, splitChar sep cs = cs.takeWhile (fun c => !(c == sep)) :: gs := by
  intro cs
  induction cs with
  | nil => exact ⟨[], by simp [splitChar]⟩
  | cons c rest ih =>
    obtain ⟨gs, hgs⟩ := ih
    by_cases hc : c = sep
    · subst hc
      refine ⟨rest.takeWhile (fun ch => !(ch == c)) :: gs, ?_⟩
      simp [splitChar, hgs, List.takeWhile_cons]
    · refine ⟨gs, ?_⟩
      simp [splitChar, hgs, hc, List.takeWhile_cons]

/-- A split never returns an empty list of buckets. -/
theorem splitChar_ne_nil (sep : Char) (cs : List Char) : splitChar sep cs ≠ [] := by
  cases cs with
  | nil => simp [splitChar]
  | cons c rest =>
    simp only [splitChar]
    rcases h : splitChar sep rest with _ | ⟨g, gs⟩
    · simp
    · by_cases hc : c = sep <;> simp [hc]

/-- A prefix of separator-free characters lands in the `takeWhile`. -/
theorem prefix_takeWhile (p : Char → Bool) :
    ∀ (pat l : List Char), pat <+: l → (∀ c ∈ pat, p c = true) → pat <+: l.takeWhile p := by
  intro pat
  induction pat with
  | nil => intro l _ _; exact List.nil_prefix
  | cons a pat2 ih =>
    intro l hpre hall
    cases l with
    | nil =>
      rw [List.prefix_nil] at hpre
      cases hpre
    | cons b l2 =>
      obtain ⟨hab, hp2⟩ := List.cons_prefix_cons.mp hpre
      subst hab
      have hpa : p a = true := hall a (by simp)
      simp only [List.takeWhile_cons, hpa, if_true]
      exact List.cons_prefix_cons.mpr ⟨rfl, ih l2 hp2 (fun c hc => hall c (by simp [hc]))⟩

/-- A separator-free infix of a line survives into one of its buckets. -/
theorem infix_splitChar (sep : Char) :
    ∀ (cs pat : List Char), pat <:+: cs → sep ∉ pat →
    ∃ g ∈ splitChar sep cs, pat <:+: g := by
  intro cs
  induction cs with
  | nil =>
    intro pat hpat _
    rw [List.infix_nil] at hpat
    subst hpat
    exact ⟨[], by simp [splitChar], List.nil_infix⟩
  | cons c rest ih =>
    intro pat hpat hsep
    rcases List.infix_cons_iff.mp hpat with hpre | hinf
    · by_cases hc : c = sep
      · cases pat with
        | nil =>
          obtain ⟨g, gs, hgs⟩ : ∃ g gs, splitChar sep (c :: rest) = g :: gs := by
            rcases hsp : splitChar sep (c :: rest) with _ | ⟨g, gs⟩
            · exact absurd hsp (splitChar_ne_nil sep _)
            · exact ⟨g, gs, rfl⟩
          exact ⟨g, by simp [hgs], List.nil_infix⟩
        | cons a pat2 =>
          obtain ⟨hac, _⟩ := List.cons_prefix_cons.mp hpre
          exact absurd (List.mem_cons.mpr (Or.inl (hac.trans hc).symm)) hsep
      · obtain ⟨gs, hgs⟩ := splitChar_first sep (c :: rest)
        have hkeep : ∀ x ∈ pat, (fun ch => !(ch == sep)) x = true := by
          intro x hx
          simp only [Bool.not_eq_true', beq_eq_false_iff_ne]
          exact fun heq => hsep (heq ▸ hx)
        have hp := prefix_takeWhile (fun ch => !(ch == sep)) pat (c :: rest) hpre hkeep
        exact ⟨(c :: rest).takeWhile (fun ch => !(ch == sep)), by simp [hgs], hp.isInfix⟩
    · obtain ⟨g, hg, hpat2⟩ := ih pat hinf hsep
      rcases hsp : splitChar sep rest with _ | ⟨g0, gs⟩
      · exact absurd hsp (splitChar_ne_nil sep rest)
      · rw [hsp] at hg
        by_cases hc : c = sep
        · refine ⟨g, ?_, hpat2⟩
          have hres : splitChar sep (c :: rest) = [] :: g0 :: gs := by
            simp [splitChar, hsp, hc]
          rw [hres]
          exact List.mem_cons_of_mem _ hg
        · have hres : splitChar sep (c :: rest) = (c :: g0) :: gs := by
            simp [splitChar, hsp, hc]
          rcases List.mem_cons.mp hg with hg0 | hgs2
          · subst hg0
            exact ⟨c :: g, by rw [hres]; exact List.mem_cons_self _ _,
              List.infix_cons hpat2⟩
          · exact ⟨g, by rw [hres]; exact List.mem_cons_of_mem _ hgs2, hpat2⟩

/-- A marker-carrying line keeps the marker inside one of its trimmed
pipe-separated fields. -/
theorem marker_piece (s : String) (hm : hasMarker s = true) :
    ∃ piece ∈ pySplitTrim s, markerChars <:+: piece.data := by
  have hinf : markerChars <:+: s.data := (containsSeq_iff markerChars s.data).mp hm
  have hsep : '|' ∉ markerChars := by decide
  obtain ⟨g, hg, hpg⟩ := infix_splitChar '|' s.data markerChars hinf hsep
  have hne : markerChars ≠ [] := by decide
  have hns : ∀ c ∈ markerChars, pySpace c = false := by decide
  have hstrip : markerChars <:+: stripL g := infix_stripL markerChars g hne hns hpg
  have hgne : (stripL g).isEmpty = false := by
    cases hemp : (stripL g).isEmpty with
    | false => rfl
    | true =>
      rw [List.isEmpty_iff] at hemp
      rw [hemp, List.infix_nil] at hstrip
      exact absurd hstrip hne
  refine ⟨String.mk (stripL g), ?_, hstrip⟩
  unfold pySplitTrim
  exact List.mem_map_of_mem _
    (List.mem_filter.mpr ⟨List.mem_map_of_mem _ hg, by simp [hgne]⟩)

/-- Every character of a digit run is a digit or an underscore. -/
theorem digitRun_mem (n : Nat) : ∀ cs, cs.length ≤ n → digitRun cs = true →
    ∀ c ∈ cs, (c.isDigit || c == '_') = true := by
  induction n with
  | zero =>
    intro cs hlen _ c hc
    have : cs = [] := List.length_eq_zero.mp (Nat.le_zero.mp hlen)
    subst this
    cases hc
  | succ n ih =>
    intro cs hlen hrun c hc
    cases cs with
    | nil => cases hc
    | cons a rest =>
      cases rest with
      | nil =>
        simp only [digitRun] at hrun
        simp only [List.mem_singleton] at hc
        subst hc
        simp [hrun]
      | cons d rest2 =>
        simp only [digitRun, Bool.and_eq_true] at hrun
        obtain ⟨ha, hrest⟩ := hrun
        by_cases hd : d = '_'
        · rw [if_pos hd] at hrest
          rcases List.mem_cons.mp hc with rfl | hc2
          · simp [ha]
          · rcases List.mem_cons.mp hc2 with rfl | hc3
            · simp [hd]
            · exact ih rest2 (by simp only [List.length_cons] at hlen ⊢; omega) hrest c hc3
        · rw [if_neg hd] at hrest
          rcases List.mem_cons.mp hc with rfl | hc2
          · simp [ha]
          · exact ih (d :: rest2) (by simp only [List.length_cons] at hlen ⊢; omega) hrest c hc2

/-- A run containing a capital `I` is not a digit run. -/
theorem digitRun_false_of_memI (cs : List Char) (hc : 'I' ∈ cs) : digitRun cs = false := by
  cases h : digitRun cs with
  | false => rfl
  | true => exact absurd (digitRun_mem cs.length cs le_rfl h 'I' hc) (by decide)

/-- Exponent digits containing a capital `I` do not parse. -/
theorem expDigits_none_of_memI (ds : List Char) (hc : 'I' ∈ ds) : expDigits ds = none := by
  cases ds with
  | nil => cases hc
  | cons d rest =>
    simp only [expDigits]
    rcases List.mem_cons.mp hc with rfl | hrest
    · rw [if_neg (by decide), if_neg (by decide)]
      simp [digitRun_false_of_memI _ (List.mem_cons_self _ _)]
    · by_cases h1 : d = '+'
      · rw [if_pos h1]
        simp [digitRun_false_of_memI rest hrest]
      · by_cases h2 : d = '-'
        · rw [if_neg h1, if_pos h2]
          simp [digitRun_false_of_memI rest hrest]
        · rw [if_neg h1, if_neg h2]
          simp [digitRun_false_of_memI (d :: rest) (List.mem_cons_of_mem _ hrest)]

/-- An exponent suffix containing a capital `I` does not parse. -/
theorem expVal_none_of_memI (cs : List Char) (hc : 'I' ∈ cs) : expVal cs = none := by
  cases cs with
  | nil => cases hc
  | cons c rest =>
    simp only [expVal]
    rcases List.mem_cons.mp hc with rfl | hrest
    · rw [if_neg (by decide)]
    · by_cases hcE : (c = 'e' || c = 'E') = true
      · rw [if_pos hcE]
        exact expDigits_none_of_memI rest hrest
      · rw [if_neg hcE]

/-- A decimal literal containing a capital `I` does not parse. -/
theorem decimalVal_none_of_memI (neg : Bool) (cs : List Char) (hc : 'I' ∈ cs) :
    decimalVal neg cs = none := by
  have hIdu : digitOrUnd 'I' = false := by decide
  have hc2 := hc
  rw [← List.takeWhile_append_dropWhile digitOrUnd cs] at hc2
  have hcI : 'I' ∈ cs.dropWhile digitOrUnd := by
    rcases List.mem_append.mp hc2 with h | h
    · have := List.mem_takeWhile_imp h
      rw [hIdu] at this
      cases this
    · exact h
  simp only [decimalVal]
  split
  · rename_i heq
    rw [heq] at hcI
    cases hcI
  · rename_i c rest2 heq
    rw [heq] at hcI
    rcases List.mem_cons.mp hcI with rfl | hrest2
    · rw [if_neg (show ¬('I' = '.') by decide)]
      have hexp := expVal_none_of_memI ('I' :: rest2) (List.mem_cons_self _ _)
      split
      · rw [heq, hexp]
      · rfl
    · by_cases hdot : c = '.'
      · rw [if_pos hdot]
        have hrest2b := hrest2
        rw [← List.takeWhile_append_dropWhile digitOrUnd rest2] at hrest2b
        have h2 : 'I' ∈ rest2.dropWhile digitOrUnd := by
          rcases List.mem_append.mp hrest2b with h | h
          · have := List.mem_takeWhile_imp h
            rw [hIdu] at this
            cases this
          · exact h
        have hexp := expVal_none_of_memI _ h2
        split
        · rw [hexp]
        · rfl
      · rw [if_neg hdot]
        have hexp := expVal_none_of_memI (c :: rest2) (List.mem_cons_of_mem _ hrest2)
        split
        · rw [heq, hexp]
        · rfl

/-- The sign-stripped body of a float literal: nine or more characters
containing a capital `I` match none of `inf`, `infinity`, `nan` and no
decimal literal. -/
theorem pyFloatBody_none (neg : Bool) (body : List Char) (hb : 'I' ∈ body)
    (hblen : 9 ≤ body.length) :
    (if lowChars body = ['i', 'n', 'f'] ∨
        lowChars body = ['i', 'n', 'f', 'i', 'n', 'i', 't', 'y'] then
      some (PyFloat.inf neg)
     else if lowChars body = ['n', 'a', 'n'] then some PyFloat.nan
     else decimalVal neg body) = none := by
  have hlenlow : (lowChars body).length = body.length := List.length_map _ _
  rw [if_neg, if_neg]
  · exact decimalVal_none_of_memI neg body hb
  · intro h
    have := congrArg List.length h
    rw [hlenlow] at this
    simp at this
    omega
  · intro h
    rcases h with h | h <;>
    · have := congrArg List.length h
      rw [hlenlow] at this
      simp at this
      omega

/-- A character list containing a capital `I`, ten or more characters
long, is not a Python float. -/
theorem pyFloatCore_none_of_marker (cs : List Char) (hc : 'I' ∈ cs)
    (hlen : 10 ≤ cs.length) : pyFloatCore cs = none := by
  cases cs with
  | nil => cases hc
  | cons c rest =>
    simp only [pyFloatCore]
    have hlen2 : 9 ≤ rest.length := by
      simp only [List.length_cons] at hlen
      omega
    by_cases h1 : c = '+'
    · rcases List.mem_cons.mp hc with rfl | hrest
      · exact absurd h1 (by decide)
      · subst h1
        simpa using pyFloatBody_none false rest hrest hlen2
    · by_cases h2 : c = '-'
      · rcases List.mem_cons.mp hc with rfl | hrest
        · exact absurd h2 (by decide)
        · subst h2
          simpa using pyFloatBody_none true rest hrest hlen2
      · simp only [if_neg h1, if_neg h2]
        exact pyFloatBody_none false (c :: rest) hc
          (by simp only [List.length_cons]; omega)

/-- Neither converter accepts a field carrying the marker. -/
theorem converters_fail (piece : String) (hm : markerChars <:+: piece.data) :
    pyInt? piece = none ∧ pyFloat? piece = none := by
  have hne : markerChars ≠ [] := by decide
  have hns : ∀ c ∈ markerChars, pySpace c = false := by decide
  have hstrip : markerChars <:+: stripL piece.data :=
    infix_stripL markerChars piece.data hne hns hm
  have hI : 'I' ∈ stripL piece.data := hstrip.subset (by decide)
  have h10 : markerChars.length = 10 := by decide
  have hlen : 10 ≤ (stripL piece.data).length := by
    have := hstrip.length_le
    omega
  constructor
  · unfold pyInt?
    rcases hcs : stripL piece.data with _ | ⟨c, rest⟩
    · rw [hcs] at hI; cases hI
    · rw [hcs] at hI
      simp only [pyIntCore]
      rcases List.mem_cons.mp hI with rfl | hrest
      · rw [if_neg (by decide), if_neg (by decide)]
        simp [digitRun_false_of_memI _ (List.mem_cons_self _ _)]
      · by_cases h1 : c = '+'
        · rw [if_pos h1]
          simp [digitRun_false_of_memI rest hrest]
        · by_cases h2 : c = '-'
          · rw [if_neg h1, if_pos h2]
            simp [digitRun_false_of_memI rest hrest]
          · rw [if_neg h1, if_neg h2]
            simp [digitRun_false_of_memI (c :: rest) (List.mem_cons_of_mem _ hrest)]
  · unfold pyFloat?
    exact pyFloatCore_none_of_marker _ hI hlen

/-- A successful float comprehension accepts every element. -/
theorem floatList_mem_isSome (vs : List String) :
    ∀ xs, floatList vs = some xs → ∀ v ∈ vs, (pyFloat? v).isSome = true := by
  induction vs with
  | nil => intro xs _ v hv; cases hv
  | cons w vs ih =>
    intro xs hxs v hv
    simp only [floatList] at hxs
    cases hw : pyFloat? w with
    | none => rw [hw] at hxs; cases hxs
    | some x =>
      rw [hw] at hxs
      cases hvs : floatList vs with
      | none => rw [hvs] at hxs; cases hxs
      | some ys =>
        rcases List.mem_cons.mp hv with rfl | hv2
        · simp [hw]
        · exact ih ys hvs v hv2

/-- A field both converters reject makes the whole row conversion fail. -/
theorem convertRow_fail (vs : List String) (v : String) (hv : v ∈ vs)
    (hint : pyInt? v = none) (hfloat : pyFloat? v = none) : convertRow vs = none := by
  cases hcr : convertRow vs with
  | none => rfl
  | some r =>
    cases vs with
    | nil => cases hv
    | cons v0 rest =>
      simp only [convertRow] at hcr
      cases hi : pyInt? v0 with
      | none => rw [hi] at hcr; cases hcr
      | some i =>
        rw [hi] at hcr
        cases hfl : floatList rest with
        | none => rw [hfl] at hcr; cases hcr
        | some xs =>
          rcases List.mem_cons.mp hv with rfl | hrest
          · rw [hint] at hi; cases hi
          · have := floatList_mem_isSome rest xs hfl v hrest
            rw [hfloat] at this
            cases this

/-- A line whose stripped form contains the marker never converts as a
data row. -/
theorem marker_no_convert (m : String) (hm : hasMarker (pyStrip m) = true) :
    convertRow (pySplitTrim (pyStrip m)) = none := by
  obtain ⟨piece, hpiece, hinf⟩ := marker_piece (pyStrip m) hm
  obtain ⟨hint, hfloat⟩ := converters_fail piece hinf
  exact convertRow_fail _ piece hpiece hint hfloat

/-! ### The claims -/

/-- C1.  The parse fails with `missing header` exactly when no line
contains the marker (no header is ever encountered before the data section
starts); it fails with `no data` exactly when some line contains the
marker but the scan converts zero rows, so the missing-header check takes
precedence; in every other case it returns a table, and those are the only
two failures. -/
theorem c1_structural_errors (lines : List String) :
    (read_and_parse_dat lines = Except.error ParseError.missingHeader ↔
      ∀ l ∈ lines, hasMarker (pyStrip l) = false) ∧
    (read_and_parse_dat lines = Except.error ParseError.noData ↔
      (∃ l ∈ lines, hasMarker (pyStrip l) = true) ∧ scanData lines = []) ∧
    ((∃ l ∈ lines, hasMarker (pyStrip l) = true) → scanData lines ≠ [] →
      ∃ t, read_and_parse_dat lines = Except.ok t) := by
  have hiff := scan_seek_none_iff lines 0 [] []
  rcases hs : scan lines 0 none [] [] with ⟨c, d, g⟩
  rw [hs] at hiff
  have hsd : scanData lines = d := by unfold scanData; rw [hs]
  cases c with
  | none =>
    have hall : ∀ l ∈ lines, hasMarker (pyStrip l) = false := hiff.mp rfl
    have hread : read_and_parse_dat lines = Except.error ParseError.missingHeader := by
      unfold read_and_parse_dat; rw [hs]
    refine ⟨⟨fun _ => hall, fun _ => hread⟩, ⟨fun h => ?_, fun h => ?_⟩, fun hex _ => ?_⟩
    · rw [hread] at h
      injection h with h2
      cases h2
    · obtain ⟨l, hl, hm⟩ := h.1
      rw [hall l hl] at hm
      cases hm
    · obtain ⟨l, hl, hm⟩ := hex
      rw [hall l hl] at hm
      cases hm
  | some cs =>
    have hnotall : ¬∀ l ∈ lines, hasMarker (pyStrip l) = false := by
      intro hall
      have := hiff.mpr hall
      cases this
    have hex : ∃ l ∈ lines, hasMarker (pyStrip l) = true := by
      push_neg at hnotall
      obtain ⟨l, hl, hm⟩ := hnotall
      exact ⟨l, hl, by simpa using hm⟩
    by_cases hd0 : d = []
    · subst hd0
      have hread : read_and_parse_dat lines = Except.error ParseError.noData := by
        unfold read_and_parse_dat; rw [hs]; simp
      refine ⟨⟨fun h => ?_, fun hall => absurd hall hnotall⟩,
        ⟨fun _ => ⟨hex, hsd⟩, fun _ => hread⟩, fun _ hne => absurd hsd hne⟩
      rw [hread] at h
      injection h with h2
      cases h2
    · have hread : read_and_parse_dat lines = Except.ok ⟨cs, d⟩ := by
        unfold read_and_parse_dat; rw [hs]; simp [hd0]
      refine ⟨⟨fun h => ?_, fun hall => absurd hall hnotall⟩,
        ⟨fun h => ?_, fun h => absurd (hsd.symm.trans h.2) hd0⟩,
        fun _ _ => ⟨⟨cs, d⟩, hread⟩⟩
      · rw [hread] at h
        cases h
      · rw [hread] at h
        cases h

/-- C1 witness: a complete input exercises the table case. -/
theorem c1_structural_errors_witness :
    ∃ t, read_and_parse_dat wLines1 = Except.ok t :=
  (c1_structural_errors wLines1).2.2 (by decide) (by decide)

/-- C2.  A well-formed input — no marker in the preamble, a header of `N`
names, and a data block whose lines are each blank or rule lines or valid
rows, with `M` valid rows in total, `M ≥ 1` (zero valid rows is the
structural `no data` failure of C1/C5) — parses to the table whose columns
are the header pieces in order and whose rows are exactly those `M` rows
in input order, with no sorting and no deduplication. -/
theorem c2_wellformed_shape (pre : List String) (h sep : String) (body : List String)
    (cs : List String)
    (hpre : ∀ l ∈ pre, hasMarker (pyStrip l) = false)
    (hh : hasMarker (pyStrip h) = true)
    (hcs : pySplitTrim (pyStrip h) = cs)
    (hbody : ∀ l ∈ body, rowStep cs l = RowStep.skip ∨ (rowResult cs l).isSome = true)
    (hne : body.filterMap (rowResult cs) ≠ []) :
    read_and_parse_dat (pre ++ h :: sep :: body) =
      Except.ok ⟨cs, body.filterMap (rowResult cs)⟩ ∧
    (body.filterMap (rowResult cs)).length =
      (body.filter (fun l => (rowResult cs l).isSome)).length := by
  subst hcs
  exact ⟨by rw [read_decomp pre h sep body hpre hh, if_neg hne],
    filterMap_length_eq_count _ body⟩

/-- C2 witness. -/
theorem c2_wellformed_shape_witness :
    read_and_parse_dat ([wPreLine] ++ wHeader :: wSep :: [wRow0, wRow1]) =
      Except.ok ⟨pySplitTrim (pyStrip wHeader),
        [wRow0, wRow1].filterMap (rowResult (pySplitTrim (pyStrip wHeader)))⟩ ∧
    ([wRow0, wRow1].filterMap (rowResult (pySplitTrim (pyStrip wHeader)))).length =
      ([wRow0, wRow1].filter
        (fun l => (rowResult (pySplitTrim (pyStrip wHeader)) l).isSome)).length :=
  c2_wellformed_shape [wPreLine] wHeader wSep [wRow0, wRow1] (pySplitTrim (pyStrip wHeader))
    (by decide) (by decide) rfl (by decide) (by decide)

/-- C3.  A data line with the wrong field count, or whose fields fail
integer/float conversion, contributes nothing but does not abort the scan:
the rows are exactly those of the blocks around it, and every valid row
after it still appears. -/
theorem c3_malformed_recoverable (pre : List String) (h sep : String)
    (b1 : List String) (bad : String) (b2 : List String) (cs : List String)
    (hpre : ∀ l ∈ pre, hasMarker (pyStrip l) = false)
    (hh : hasMarker (pyStrip h) = true)
    (hcs : pySplitTrim (pyStrip h) = cs)
    (hbad : (pySplitTrim (pyStrip bad)).length ≠ cs.length ∨
            convertRow (pySplitTrim (pyStrip bad)) = none) :
    scanData (pre ++ h :: sep :: (b1 ++ bad :: b2)) =
      b1.filterMap (rowResult cs) ++ b2.filterMap (rowResult cs) ∧
    (∀ l ∈ b2, ∀ r, rowResult cs l = some r →
      r ∈ scanData (pre ++ h :: sep :: (b1 ++ bad :: b2))) := by
  subst hcs
  have hbadnone : rowResult (pySplitTrim (pyStrip h)) bad = none := by
    cases hrr : rowResult (pySplitTrim (pyStrip h)) bad with
    | none => rfl
    | some r =>
      obtain ⟨_, hlen, hconv⟩ := (rowResult_eq_some_iff _ bad r).mp hrr
      rcases hbad with hb | hb
      · exact absurd hlen hb
      · rw [hb] at hconv; cases hconv
  have hdata := scanData_decomp pre h sep (b1 ++ bad :: b2) hpre hh
  rw [List.filterMap_append, List.filterMap_cons, hbadnone] at hdata
  refine ⟨hdata, fun l hl r hr => ?_⟩
  rw [hdata]
  exact List.mem_append.mpr (Or.inr (List.mem_filterMap.mpr ⟨l, hl, hr⟩))

/-- C3 witness: a bad first field between two valid rows. -/
theorem c3_malformed_recoverable_witness :
    scanData ([wPreLine] ++ wHeader :: wSep :: ([wRow0] ++ wBad :: [wRow1])) =
      [wRow0].filterMap (rowResult (pySplitTrim (pyStrip wHeader))) ++
      [wRow1].filterMap (rowResult (pySplitTrim (pyStrip wHeader))) ∧
    (∀ l ∈ [wRow1], ∀ r, rowResult (pySplitTrim (pyStrip wHeader)) l = some r →
      r ∈ scanData ([wPreLine] ++ wHeader :: wSep :: ([wRow0] ++ wBad :: [wRow1]))) :=
  c3_malformed_recoverable [wPreLine] wHeader wSep [wRow0] wBad [wRow1]
    (pySplitTrim (pyStrip wHeader)) (by decide) (by decide) rfl (by decide)

/-- C4.  Only the first marker line (seen while still seeking) becomes the
header and fixes the schema; a later marker line in the data section is
processed exactly as an ordinary data candidate, in place — it contributes
a row precisely when its field count matches the schema and all its fields
convert, and is otherwise discarded like any malformed row. -/
theorem c4_header_once (pre : List String) (h sep : String) (b1 : List String)
    (m : String) (b2 : List String)
    (hpre : ∀ l ∈ pre, hasMarker (pyStrip l) = false)
    (hh : hasMarker (pyStrip h) = true)
    (hm : hasMarker (pyStrip m) = true) :
    scanCols (pre ++ h :: sep :: (b1 ++ m :: b2)) = some (pySplitTrim (pyStrip h)) ∧
    scanData (pre ++ h :: sep :: (b1 ++ m :: b2)) =
      b1.filterMap (rowResult (pySplitTrim (pyStrip h))) ++
      (rowResult (pySplitTrim (pyStrip h)) m).toList ++
      b2.filterMap (rowResult (pySplitTrim (pyStrip h))) ∧
    (∀ r, rowResult (pySplitTrim (pyStrip h)) m = some r ↔
      ((pySplitTrim (pyStrip m)).length = (pySplitTrim (pyStrip h)).length ∧
       convertRow (pySplitTrim (pyStrip m)) = some r)) := by
  refine ⟨scanCols_decomp pre h sep (b1 ++ m :: b2) hpre hh, ?_, ?_⟩
  · have hsplit : (b1 ++ m :: b2).filterMap (rowResult (pySplitTrim (pyStrip h))) =
        b1.filterMap (rowResult (pySplitTrim (pyStrip h))) ++
        (rowResult (pySplitTrim (pyStrip h)) m).toList ++
        b2.filterMap (rowResult (pySplitTrim (pyStrip h))) := by
      rw [List.filterMap_append, List.filterMap_cons]
      cases hrm : rowResult (pySplitTrim (pyStrip h)) m <;> simp
    rw [scanData_decomp pre h sep (b1 ++ m :: b2) hpre hh, hsplit]
  · intro r
    constructor
    · intro hr
      obtain ⟨_, hlen, hconv⟩ := (rowResult_eq_some_iff _ m r).mp hr
      exact ⟨hlen, hconv⟩
    · rintro ⟨hlen, hconv⟩
      rw [marker_no_convert m hm] at hconv
      cases hconv

/-- C4 witness: a second header-like line sits between two valid rows. -/
theorem c4_header_once_witness :
    scanCols ([] ++ wHeader :: wSep :: ([wRow0] ++ wHeader :: [wRow1])) =
      some (pySplitTrim (pyStrip wHeader)) ∧
    scanData ([] ++ wHeader :: wSep :: ([wRow0] ++ wHeader :: [wRow1])) =
      [wRow0].filterMap (rowResult (pySplitTrim (pyStrip wHeader))) ++
      (rowResult (pySplitTrim (pyStrip wHeader)) wHeader).toList ++
      [wRow1].filterMap (rowResult (pySplitTrim (pyStrip wHeader))) ∧
    (∀ r, rowResult (pySplitTrim (pyStrip wHeader)) wHeader = some r ↔
      ((pySplitTrim (pyStrip wHeader)).length = (pySplitTrim (pyStrip wHeader)).length ∧
       convertRow (pySplitTrim (pyStrip wHeader)) = some r)) :=
  c4_header_once [] wHeader wSep [wRow0] wHeader [wRow1]
    (by decide) (by decide) (by decide)

/-- C5.  The line after the header is consumed unconditionally: the parse
result does not depend on it at all (even a valid data row there is
dropped); the rows come from the block after it, never from the header
line itself; and a header as the last line still parses up to the
`no data` structural error rather than failing on the skip. -/
theorem c5_separator_consumed (pre : List String) (h sep sep2 : String)
    (body : List String)
    (hpre : ∀ l ∈ pre, hasMarker (pyStrip l) = false)
    (hh : hasMarker (pyStrip h) = true) :
    read_and_parse_dat (pre ++ h :: sep :: body) =
      read_and_parse_dat (pre ++ h :: sep2 :: body) ∧
    scanData (pre ++ h :: sep :: body) =
      body.filterMap (rowResult (pySplitTrim (pyStrip h))) ∧
    read_and_parse_dat (pre ++ [h]) = Except.error ParseError.noData := by
  refine ⟨?_, scanData_decomp pre h sep body hpre hh, read_header_last pre h hpre hh⟩
  rw [read_decomp pre h sep body hpre hh, read_decomp pre h sep2 body hpre hh]

/-- C5 witness: a valid data row in separator position is dropped all the
same. -/
theorem c5_separator_consumed_witness :
    read_and_parse_dat ([] ++ wHeader :: wSep :: [wRow1]) =
      read_and_parse_dat ([] ++ wHeader :: wRow0 :: [wRow1]) ∧
    scanData ([] ++ wHeader :: wSep :: [wRow1]) =
      [wRow1].filterMap (rowResult (pySplitTrim (pyStrip wHeader))) ∧
    read_and_parse_dat ([] ++ [wHeader]) = Except.error ParseError.noData :=
  c5_separator_consumed [] wHeader wSep wRow0 [wRow1] (by decide) (by decide)

/-- C6.  In the data section a line that is blank after trimming or whose
trimmed form starts with a plus is skipped: the parse result is the same
as if the line were absent, and every valid row after it still appears. -/
theorem c6_blank_rule_skipped (pre : List String) (h sep : String)
    (b1 : List String) (blank : String) (b2 : List String)
    (hpre : ∀ l ∈ pre, hasMarker (pyStrip l) = false)
    (hh : hasMarker (pyStrip h) = true)
    (hblank : ((pyStrip blank).data.isEmpty || startsPlus (pyStrip blank).data) = true) :
    read_and_parse_dat (pre ++ h :: sep :: (b1 ++ blank :: b2)) =
      read_and_parse_dat (pre ++ h :: sep :: (b1 ++ b2)) ∧
    scanData (pre ++ h :: sep :: (b1 ++ blank :: b2)) =
      b1.filterMap (rowResult (pySplitTrim (pyStrip h))) ++
      b2.filterMap (rowResult (pySplitTrim (pyStrip h))) ∧
    (∀ l ∈ b2, ∀ r, rowResult (pySplitTrim (pyStrip h)) l = some r →
      r ∈ scanData (pre ++ h :: sep :: (b1 ++ blank :: b2))) := by
  have hbnone : rowResult (pySplitTrim (pyStrip h)) blank = none := by
    cases hrr : rowResult (pySplitTrim (pyStrip h)) blank with
    | none => rfl
    | some r =>
      obtain ⟨hski, _, _⟩ := (rowResult_eq_some_iff _ blank r).mp hrr
      rw [hblank] at hski
      cases hski
  have hdata := scanData_decomp pre h sep (b1 ++ blank :: b2) hpre hh
  rw [List.filterMap_append, List.filterMap_cons, hbnone] at hdata
  have hdata2 := scanData_decomp pre h sep (b1 ++ b2) hpre hh
  rw [List.filterMap_append] at hdata2
  refine ⟨?_, hdata, fun l hl r hr => ?_⟩
  · rw [read_decomp pre h sep (b1 ++ blank :: b2) hpre hh,
      read_decomp pre h sep (b1 ++ b2) hpre hh,
      List.filterMap_append, List.filterMap_cons, hbnone, List.filterMap_append]
  · rw [hdata]
    exact List.mem_append.mpr (Or.inr (List.mem_filterMap.mpr ⟨l, hl, hr⟩))

/-- C6 witness: a blank line between two valid rows. -/
theorem c6_blank_rule_skipped_witness :
    read_and_parse_dat ([] ++ wHeader :: wSep :: ([wRow0] ++ wBlank :: [wRow1])) =
      read_and_parse_dat ([] ++ wHeader :: wSep :: ([wRow0] ++ [wRow1])) ∧
    scanData ([] ++ wHeader :: wSep :: ([wRow0] ++ wBlank :: [wRow1])) =
      [wRow0].filterMap (rowResult (pySplitTrim (pyStrip wHeader))) ++
      [wRow1].filterMap (rowResult (pySplitTrim (pyStrip wHeader))) ∧
    (∀ l ∈ [wRow1], ∀ r, rowResult (pySplitTrim (pyStrip wHeader)) l = some r →
      r ∈ scanData ([] ++ wHeader :: wSep :: ([wRow0] ++ wBlank :: [wRow1]))) :=
  c6_blank_rule_skipped [] wHeader wSep [wRow0] wBlank [wRow1]
    (by decide) (by decide) (by decide)

/-- C7.  Every row of a returned table has exactly as many values as the
schema has names — one integer first value plus one float per remaining
field — and was converted from a field list of the schema's length. -/
theorem c7_row_shape (lines : List String) (t : LogTable)
    (ht : read_and_parse_dat lines = Except.ok t) :
    ∀ r ∈ t.rows, 1 + r.2.length = t.columns.length ∧
      ∃ vs, vs.length = t.columns.length ∧ convertRow vs = some r := by
  rcases hs : scan lines 0 none [] [] with ⟨c, d, g⟩
  cases c with
  | none =>
    have hread : read_and_parse_dat lines = Except.error ParseError.missingHeader := by
      unfold read_and_parse_dat; rw [hs]
    rw [hread] at ht
    cases ht
  | some cs =>
    by_cases hd0 : d = []
    · have hread : read_and_parse_dat lines = Except.error ParseError.noData := by
        unfold read_and_parse_dat; rw [hs]; simp [hd0]
      rw [hread] at ht
      cases ht
    · have hread : read_and_parse_dat lines = Except.ok ⟨cs, d⟩ := by
        unfold read_and_parse_dat; rw [hs]; simp [hd0]
      rw [hread] at ht
      injection ht with ht2
      subst ht2
      intro r hr
      obtain ⟨vs, hvslen, hconv⟩ := scanData_shape lines 0 [] cs r
        (by rw [hs]) (by rw [hs]; exact hr)
      refine ⟨?_, vs, hvslen, hconv⟩
      obtain ⟨i, xs⟩ := r
      have := convertRow_length vs i xs hconv
      simp only at hvslen ⊢
      omega

/-- C7 witness. -/
theorem c7_row_shape_witness :
    1 + (((0 : Int), [PyFloat.finite 15 10]) : Row).2.length =
      (LogTable.mk (pySplitTrim (pyStrip wHeader)) [((0 : Int), [PyFloat.finite 15 10])]).columns.length ∧
    ∃ vs, vs.length =
        (LogTable.mk (pySplitTrim (pyStrip wHeader)) [((0 : Int), [PyFloat.finite 15 10])]).columns.length ∧
      convertRow vs = some (((0 : Int), [PyFloat.finite 15 10]) : Row) :=
  c7_row_shape wLines1
    (LogTable.mk (pySplitTrim (pyStrip wHeader)) [((0 : Int), [PyFloat.finite 15 10])])
    (by decide) ((0 : Int), [PyFloat.finite 15 10]) (by decide)

/-- C8.  The parse is a single forward pass that terminates after the
input: as many fuel units as lines always suffice for the loop, and on any
finite input the parser returns a table or one of the structural errors. -/
theorem c8_single_pass_terminates (lines : List String) :
    scanFuel lines.length lines 0 none [] [] = some (scan lines 0 none [] []) ∧
    ((∃ t, read_and_parse_dat lines = Except.ok t) ∨
     (∃ e, read_and_parse_dat lines = Except.error e)) := by
  refine ⟨scanFuel_adequate lines.length lines le_rfl 0 none [] [], ?_⟩
  cases hr : read_and_parse_dat lines with
  | ok t => exact Or.inl ⟨t, rfl⟩
  | error e => exact Or.inr ⟨e, rfl⟩

/-- C9.  The position-tagged scan prints exactly the parser's diagnostics,
and in it every skipped-row diagnostic reports a line number one less than
the line's actual 1-based position (the separator consumed after the
header advanced the input without the counter), while the header
diagnostic reports its true position. -/
theorem c9_diag_line_numbers (lines : List String) :
    parseDiags lines = (traceDiags lines).map TrDiag.diag ∧
    ∀ t ∈ traceDiags lines,
      (skipDiag t.diag = true → diagLn t.diag + 1 = t.actual) ∧
      (skipDiag t.diag = false → diagLn t.diag = t.actual) := by
  constructor
  · have hagree := scanTr_agree lines.length lines le_rfl 1 0 none [] []
    simp only [List.map_nil] at hagree
    unfold parseDiags traceDiags
    rw [hagree]
  · intro t ht
    exact scanTr_invariant lines.length lines le_rfl 1 0 none [] []
      (fun _ => rfl) (fun hc => absurd rfl hc) (fun u hu => by cases hu) t ht

/-- C10.  Header recognition only requires the marker as a substring of
the stripped line — nothing constrains which name comes first in the
schema, and the first data field is parsed as the integer column
regardless.  Concretely, `Residual | Inner_Iter` yields a table whose
integer-typed first column is named `Residual`, and a marker buried inside
a longer name is accepted just the same. -/
theorem c10_marker_substring (pre : List String) (h sep : String) (body : List String)
    (hpre : ∀ l ∈ pre, hasMarker (pyStrip l) = false)
    (hh : hasMarker (pyStrip h) = true) :
    read_and_parse_dat (pre ++ h :: sep :: body) =
      (if body.filterMap (rowResult (pySplitTrim (pyStrip h))) = []
       then Except.error ParseError.noData
       else Except.ok ⟨pySplitTrim (pyStrip h),
                       body.filterMap (rowResult (pySplitTrim (pyStrip h)))⟩) ∧
    read_and_parse_dat [wHeaderSwap, wSep, wRow3] =
      Except.ok ⟨[strResidual, strInnerIter], [((3 : Int), [PyFloat.finite 15 10])]⟩ ∧
    read_and_parse_dat [wHeaderLong, wSep, wRowB] =
      Except.ok ⟨[strLongName, strA], [((1 : Int), [PyFloat.finite 20 10])]⟩ :=
  ⟨read_decomp pre h sep body hpre hh, by decide, by decide⟩

/-- C10 witness. -/
theorem c10_marker_substring_witness :
    read_and_parse_dat ([] ++ wHeaderSwap :: wSep :: [wRow3]) =
      (if [wRow3].filterMap (rowResult (pySplitTrim (pyStrip wHeaderSwap))) = []
       then Except.error ParseError.noData
       else Except.ok ⟨pySplitTrim (pyStrip wHeaderSwap),
                       [wRow3].filterMap (rowResult (pySplitTrim (pyStrip wHeaderSwap)))⟩) ∧
    read_and_parse_dat [wHeaderSwap, wSep, wRow3] =
      Except.ok ⟨[strResidual, strInnerIter], [((3 : Int), [PyFloat.finite 15 10])]⟩ ∧
    read_and_parse_dat [wHeaderLong, wSep, wRowB] =
      Except.ok ⟨[strLongName, strA], [((1 : Int), [PyFloat.finite 20 10])]⟩ :=
  c10_marker_substring [] wHeaderSwap wSep [wRow3] (by decide) (by decide)

/-- C9 witness: the bad row at actual position five is reported as line
four. -/
theorem c9_diag_line_numbers_witness :
    (skipDiag (TrDiag.mk (Diag.skipValue 4) 5).diag = true →
      diagLn (TrDiag.mk (Diag.skipValue 4) 5).diag + 1 =
        (TrDiag.mk (Diag.skipValue 4) 5).actual) ∧
    (skipDiag (TrDiag.mk (Diag.skipValue 4) 5).diag = false →
      diagLn (TrDiag.mk (Diag.skipValue 4) 5).diag =
        (TrDiag.mk (Diag.skipValue 4) 5).actual) :=
  (c9_diag_line_numbers wLines9).2 (TrDiag.mk (Diag.skipValue 4) 5) (by decide)

end CFDRead
